import Mathlib

/-!
A shallow embedding of the scull FIFO character driver (`src/driver/scull.c`)
and proofs about its read/write/ioctl operations.

The device state is the global circular-buffer state of the driver: the byte
array reached from `orig`, the two cursor pointers `start` and `end`
(modelled as offsets from `orig`), and the counts of the three semaphores
`queue_empty`, `queue_full` and `lock`.

The kernel primitives the driver calls (`down_interruptible`, `up`,
`copy_to_user`, `copy_from_user`, `access_ok`) are external to the
repository; they are modelled by their documented contracts, with oracle
booleans deciding the outcome of each fallible call: whether a sleeping
semaphore wait is interrupted by a pending cancellation, and whether a
user-space copy faults.  Copies are modelled all-or-nothing, following the
collaborator contract of the specification.  A `down_interruptible` on an
unavailable semaphore that is not interrupted blocks the caller; in the
serialized (one call at a time) semantics used here this is the outcome
`none` of the whole operation.
-/

namespace Scull

/-- Driver configuration fixed at module load: the ring wrap bound
`scull_fifo_size` (the loop resets a cursor to `orig` once its offset
reaches this value) and the per-call write cap `scull_fifo_elemsz`. -/
structure Cfg where
  scull_fifo_size : Nat
  scull_fifo_elemsz : Nat

/-- Device state.  `mem a` is the byte at offset `a` from `orig`; `start`
and `end_` are the offsets of the `start` (read) and `end` (write) cursors
from `orig`; the `Int` fields are the counts of the semaphores
`queue_empty`, `queue_full` and `lock`. -/
structure ScullState where
  mem : Nat → Nat
  start : Nat
  end_ : Nat
  queue_empty : Int
  queue_full : Int
  lock : Int

/-- `-EFAULT`, the error returned on a failed user-space copy. -/
def EFAULT : Int := 14

/-- `-ENOTTY`, the error returned for an inappropriate ioctl command. -/
def ENOTTY : Int := 25

/-- `-EINTR`, the error `down_interruptible` reports on interruption. -/
def EINTR : Int := 4

/-- Kernel `down_interruptible` on a semaphore with count `count`
(external primitive, modelled by its contract).  A positive count is
consumed and the call succeeds immediately; otherwise the caller sleeps:
`intr` says whether a pending cancellation interrupts the sleep (the call
returns with the count unchanged, and the driver only logs the failure) —
if not interrupted the caller blocks, modelled as `none`.  Counts never
drop below zero, as in the host kernel. -/
def downInterruptible (count : Int) (intr : Bool) : Option Int :=
  if 0 < count then some (count - 1)
  else if intr then some count
  else none

/-- The conditional post `if (sem.count < 0) up(&sem);` as an action on the
semaphore's count: posts (increments) only when the count is negative. -/
def condUp (count : Int) : Int := if count < 0 then count + 1 else count

/-- One iteration of the cursor-advance loop of `scull_read` /
`scull_write`: `if (p - orig >= scull_fifo_size) p = orig; else p += 1;`. -/
def advanceStep (n c : Nat) : Nat := if n ≤ c then 0 else c + 1

/-- The cursor-advance loop: `k` iterations of `advanceStep` starting from
offset `c` (`temp` counts up to `k = count`). -/
def advance (n : Nat) : Nat → Nat → Nat
  | c, 0 => c
  | c, k + 1 => advance n (advanceStep n c) k

/-- The `count` bytes of device memory beginning at offset `base`, read
contiguously with no wraparound — exactly what a single
`copy_to_user(buf, start, count)` transfers. -/
def seg (m : Nat → Nat) (base count : Nat) : List Nat :=
  (List.range count).map fun i => m (base + i)

/-- Effect of a successful `copy_from_user(end, buf, count)`: the bytes
`data` land contiguously at offsets `base, base + 1, ...`, with no
wraparound. -/
def writeMem (m : Nat → Nat) (base : Nat) (data : List Nat) : Nat → Nat :=
  fun a => if base ≤ a ∧ a - base < data.length then data.getD (a - base) 0 else m a

/-- Oracle for the fallible external calls made by one `scull_read` call:
interruption of each of the three `down_interruptible` calls (in program
order), and whether `copy_to_user` faults. -/
structure ReadOracle where
  intr_lock1 : Bool
  intr_queue_empty : Bool
  intr_lock2 : Bool
  copy_fails : Bool

/-- Oracle for the fallible external calls made by one `scull_write`
call. -/
structure WriteOracle where
  intr_lock1 : Bool
  intr_queue_full : Bool
  intr_lock2 : Bool
  copy_fails : Bool

/-- The locking / blocking phase of `scull_read`, up to (not including) the
`copy_to_user` call: `down_interruptible(&lock)`; if `start == end`,
`up(&lock)`, `down_interruptible(&queue_empty)`,
`down_interruptible(&lock)`.  A failed (interrupted) `down_interruptible`
is only logged by the driver, so execution continues regardless. -/
def readBlockPhase (s : ScullState) (o : ReadOracle) : Option ScullState :=
  match downInterruptible s.lock o.intr_lock1 with
  | none => none
  | some l1 =>
    let s1 := { s with lock := l1 }
    if s1.start = s1.end_ then
      let s2 := { s1 with lock := s1.lock + 1 }
      match downInterruptible s2.queue_empty o.intr_queue_empty with
      | none => none
      | some q =>
        let s3 := { s2 with queue_empty := q }
        match downInterruptible s3.lock o.intr_lock2 with
        | none => none
        | some l2 => some { s3 with lock := l2 }
    else some s1

/-- The copy-and-advance phase of `scull_read`: `copy_to_user(buf, start,
count)`; on failure `up(&lock)`, conditionally `up(&queue_full)`, return
`-EFAULT`; on success advance `start` by `count` single-byte steps,
`up(&lock)`, conditionally `up(&queue_full)`, return `count`.  The result
carries the bytes delivered to the user buffer. -/
def readCopyPhase (cfg : Cfg) (t : ScullState) (count : Nat) (copyFails : Bool) :
    ScullState × Int × List Nat :=
  if copyFails then
    let t1 := { t with lock := t.lock + 1 }
    let t2 := { t1 with queue_full := condUp t1.queue_full }
    (t2, -EFAULT, [])
  else
    let bytes := seg t.mem t.start count
    let t1 := { t with start := advance cfg.scull_fifo_size t.start count }
    let t2 := { t1 with lock := t1.lock + 1 }
    let t3 := { t2 with queue_full := condUp t2.queue_full }
    (t3, (count : Int), bytes)

/-- `scull_read(filp, buf, count, f_pos)` as a state transformer.  `none`
means the call blocked (a non-interrupted `down_interruptible` on an
unavailable semaphore).  Otherwise the call completes with a new state, the
returned `ssize_t`, and the bytes delivered to the user buffer. -/
def scull_read (cfg : Cfg) (s : ScullState) (count : Nat) (o : ReadOracle) :
    Option (ScullState × Int × List Nat) :=
  (readBlockPhase s o).map fun t => readCopyPhase cfg t count o.copy_fails

/-- The guard of the blocking branch of `scull_write`: `end - start == 1 ||
end - start == scull_fifo_size`, a raw (possibly negative) pointer
difference, not an occupied length. -/
def fullCond (cfg : Cfg) (s : ScullState) : Prop :=
  ((s.end_ : Int) - (s.start : Int) = 1) ∨
    ((s.end_ : Int) - (s.start : Int) = (cfg.scull_fifo_size : Int))

instance (cfg : Cfg) (s : ScullState) : Decidable (fullCond cfg s) := by
  unfold fullCond; infer_instance

/-- The truncation at the top of `scull_write`:
`if (count > scull_fifo_elemsz) count = scull_fifo_elemsz;`. -/
def wcount (cfg : Cfg) (data : List Nat) : Nat :=
  if cfg.scull_fifo_elemsz < data.length then cfg.scull_fifo_elemsz else data.length

/-- The locking / blocking phase of `scull_write`:
`down_interruptible(&lock)`; if `end - start == 1 || end - start ==
scull_fifo_size` (raw pointer difference, possibly negative), `up(&lock)`,
`down_interruptible(&queue_full)`, `down_interruptible(&lock)`. -/
def writeBlockPhase (cfg : Cfg) (s : ScullState) (o : WriteOracle) : Option ScullState :=
  match downInterruptible s.lock o.intr_lock1 with
  | none => none
  | some l1 =>
    let s1 := { s with lock := l1 }
    if fullCond cfg s1 then
      let s2 := { s1 with lock := s1.lock + 1 }
      match downInterruptible s2.queue_full o.intr_queue_full with
      | none => none
      | some q =>
        let s3 := { s2 with queue_full := q }
        match downInterruptible s3.lock o.intr_lock2 with
        | none => none
        | some l2 => some { s3 with lock := l2 }
    else some s1

/-- The copy-and-advance phase of `scull_write`: `copy_from_user(end, buf,
count)`; on failure `up(&lock)`, conditionally `up(&queue_empty)`, return
`-EFAULT`; on success write the first `count` bytes of `data` contiguously
at `end`, advance `end` by `count` single-byte steps, `up(&lock)`,
conditionally `up(&queue_empty)`, return `count`.  The result carries the
bytes accepted from the user buffer. -/
def writeCopyPhase (cfg : Cfg) (t : ScullState) (data : List Nat) (count : Nat)
    (copyFails : Bool) : ScullState × Int × List Nat :=
  if copyFails then
    let t1 := { t with lock := t.lock + 1 }
    let t2 := { t1 with queue_empty := condUp t1.queue_empty }
    (t2, -EFAULT, [])
  else
    let acc := data.take count
    let t1 := { t with mem := writeMem t.mem t.end_ acc }
    let t2 := { t1 with end_ := advance cfg.scull_fifo_size t1.end_ count }
    let t3 := { t2 with lock := t2.lock + 1 }
    let t4 := { t3 with queue_empty := condUp t3.queue_empty }
    (t4, (count : Int), acc)

/-- `scull_write(filp, buf, count, f_pos)` as a state transformer.  The
requested length is first truncated to `scull_fifo_elemsz` (`if (count >
scull_fifo_elemsz) count = scull_fifo_elemsz;`), before the lock is
taken. -/
def scull_write (cfg : Cfg) (s : ScullState) (data : List Nat) (o : WriteOracle) :
    Option (ScullState × Int × List Nat) :=
  (writeBlockPhase cfg s o).map fun t => writeCopyPhase cfg t data (wcount cfg data) o.copy_fails

/-- `_IOC_NR(cmd)`: bits 0–7 of the command word (host ioctl ABI). -/
def iocNr (cmd : Nat) : Nat := cmd % 256

/-- `_IOC_TYPE(cmd)`: bits 8–15 of the command word. -/
def iocType (cmd : Nat) : Nat := (cmd / 256) % 256

/-- `_IOC_DIR(cmd)`: bits 30–31 of the command word. -/
def iocDir (cmd : Nat) : Nat := (cmd / 1073741824) % 4

/-- `_IOC_READ`. -/
def IOC_READ : Nat := 2

/-- `_IOC_WRITE`. -/
def IOC_WRITE : Nat := 1

/-- `scull_ioctl(filp, cmd, arg)`.  `magic`, `maxnr` and `getelemsz` stand
for the constants `SCULL_IOC_MAGIC`, `SCULL_IOC_MAXNR` and
`SCULL_IOCGETELEMSZ` of the header `scull.h` (not part of the sources);
`accessOk` is the outcome of the external `access_ok` check on `arg`.  The
operation returns the (unchanged) device state and the result value. -/
def scull_ioctl (cfg : Cfg) (magic maxnr getelemsz : Nat) (accessOk : Bool)
    (cmd : Nat) (s : ScullState) : ScullState × Int :=
  if iocType cmd ≠ magic then (s, -ENOTTY)
  else if maxnr < iocNr cmd then (s, -ENOTTY)
  else
    let err :=
      if iocDir cmd &&& IOC_READ ≠ 0 then !accessOk
      else if iocDir cmd &&& IOC_WRITE ≠ 0 then !accessOk
      else false
    if err then (s, -EFAULT)
    else if cmd = getelemsz then (s, (cfg.scull_fifo_elemsz : Int))
    else (s, -ENOTTY)

/-- A serialized call: one completed `scull_write` (with the bytes the user
supplied) or one completed `scull_read` (with the requested length). -/
inductive Op where
  | wr : List Nat → Op
  | rd : Nat → Op

/-- Read oracle of an undisturbed call: no interruption, no copy fault. -/
def noIntrR : ReadOracle := ⟨false, false, false, false⟩

/-- Write oracle of an undisturbed call: no interruption, no copy fault. -/
def noIntrW : WriteOracle := ⟨false, false, false, false⟩

/-- Execute one undisturbed serialized call, keeping the bytes accepted by
a write (first component) or delivered by a read (second component). -/
def execOp (cfg : Cfg) (s : ScullState) : Op → Option (ScullState × List Nat × List Nat)
  | Op.wr data =>
    match scull_write cfg s data noIntrW with
    | none => none
    | some (s', _, acc) => some (s', acc, [])
  | Op.rd n =>
    match scull_read cfg s n noIntrR with
    | none => none
    | some (s', _, bytes) => some (s', [], bytes)

/-- Run a serialized trace of calls, concatenating the bytes accepted by
writes and the bytes delivered by reads; `none` if any call blocks. -/
def runTrace (cfg : Cfg) (s : ScullState) : List Op → Option (ScullState × List Nat × List Nat)
  | [] => some (s, [], [])
  | op :: ops =>
    match execOp cfg s op with
    | none => none
    | some (s', w, r) =>
      match runTrace cfg s' ops with
      | none => none
      | some (s'', ws, rs) => some (s'', w ++ ws, r ++ rs)

/-- The occupied bytes of the ring: device memory from `start` (inclusive)
to `end_` (exclusive), read contiguously. -/
def occBytes (s : ScullState) : List Nat := seg s.mem s.start (s.end_ - s.start)

/-- A well-formed serialized trace: every call completes (never blocks),
every write fits without wrapping the `end` cursor past the ring bound, and
every read requests at most the occupied byte count. -/
def goodTrace (cfg : Cfg) (s : ScullState) : List Op → Prop
  | [] => True
  | Op.wr data :: ops =>
    s.end_ + min data.length cfg.scull_fifo_elemsz ≤ cfg.scull_fifo_size ∧
    ∃ r, execOp cfg s (Op.wr data) = some r ∧ goodTrace cfg r.1 ops
  | Op.rd n :: ops =>
    s.start + n ≤ s.end_ ∧
    ∃ r, execOp cfg s (Op.rd n) = some r ∧ goodTrace cfg r.1 ops

/-- States reachable between serialized undisturbed calls: the lock is
free (count `1`) and neither flow-control semaphore has a pending count,
and the cursors delimit an unwrapped occupied region inside the ring. -/
def Inv (cfg : Cfg) (s : ScullState) : Prop :=
  s.lock = 1 ∧ s.queue_empty = 0 ∧ s.queue_full = 0 ∧
  s.start ≤ s.end_ ∧ s.end_ ≤ cfg.scull_fifo_size

theorem advanceStep_le (n c : Nat) (h : c ≤ n) : advanceStep n c ≤ n := by
  unfold advanceStep; split <;> omega

theorem advance_le (n : Nat) : ∀ (k c : Nat), c ≤ n → advance n c k ≤ n := by
  intro k
  induction k with
  | zero => intro c h; exact h
  | succ k ih => intro c h; exact ih (advanceStep n c) (advanceStep_le n c h)

theorem advance_add_of_le (n : Nat) : ∀ (k c : Nat), c + k ≤ n → advance n c k = c + k := by
  intro k
  induction k with
  | zero => intro c _; rfl
  | succ k ih =>
    intro c h
    have hs : advanceStep n c = c + 1 := by unfold advanceStep; split <;> omega
    show advance n (advanceStep n c) k = c + (k + 1)
    rw [hs, ih (c + 1) (by omega)]
    omega

theorem advance_mod (n : Nat) : ∀ (k c : Nat), c ≤ n → advance n c k = (c + k) % (n + 1) := by
  intro k
  induction k with
  | zero =>
    intro c h
    show c = (c + 0) % (n + 1)
    rw [Nat.add_zero]
    exact (Nat.mod_eq_of_lt (by omega)).symm
  | succ k ih =>
    intro c h
    show advance n (advanceStep n c) k = (c + (k + 1)) % (n + 1)
    rcases Nat.lt_or_ge c n with hlt | hge
    · have hs : advanceStep n c = c + 1 := by unfold advanceStep; split <;> omega
      rw [hs, ih (c + 1) (by omega)]
      congr 1
      omega
    · have hc : c = n := le_antisymm h hge
      have hs : advanceStep n c = 0 := by unfold advanceStep; split <;> omega
      rw [hs, ih 0 (Nat.zero_le n), hc]
      have : n + (k + 1) = (n + 1) + k := by omega
      rw [this, Nat.add_mod_left]
      simp

theorem seg_add (m : Nat → Nat) (base a b : Nat) :
    seg m base (a + b) = seg m base a ++ seg m (base + a) b := by
  unfold seg
  rw [List.range_add, List.map_append, List.map_map]
  congr 1
  apply List.map_congr_left
  intro i _
  simp [Function.comp, Nat.add_assoc]

theorem seg_congr {m1 m2 : Nat → Nat} {base len : Nat}
    (h : ∀ i, i < len → m1 (base + i) = m2 (base + i)) : seg m1 base len = seg m2 base len := by
  unfold seg
  apply List.map_congr_left
  intro i hi
  exact h i (List.mem_range.mp hi)

theorem writeMem_of_lt (m : Nat → Nat) (b : Nat) (d : List Nat) (a : Nat) (h : a < b) :
    writeMem m b d a = m a := by
  unfold writeMem
  rw [if_neg]
  intro hc
  omega

theorem seg_writeMem_of_le (m : Nat → Nat) (b : Nat) (d : List Nat) (st len : Nat)
    (h : st + len ≤ b) : seg (writeMem m b d) st len = seg m st len := by
  apply seg_congr
  intro i hi
  exact writeMem_of_lt m b d (st + i) (by omega)

theorem getD_range_map (d : List Nat) :
    (List.range d.length).map (fun i => d.getD i 0) = d := by
  apply List.ext_getElem
  · simp
  · intro i h1 h2
    simp only [List.getElem_map, List.getElem_range]
    exact List.getD_eq_getElem d 0 h2

theorem seg_writeMem_self (m : Nat → Nat) (b : Nat) (d : List Nat) :
    seg (writeMem m b d) b d.length = d := by
  unfold seg
  have h : ∀ i ∈ List.range d.length, writeMem m b d (b + i) = d.getD i 0 := by
    intro i hi
    have hi' : i < d.length := List.mem_range.mp hi
    unfold writeMem
    rw [if_pos ⟨by omega, by omega⟩]
    congr 1
    omega
  rw [List.map_congr_left h, getD_range_map]

theorem wcount_eq_min (cfg : Cfg) (data : List Nat) :
    wcount cfg data = min data.length cfg.scull_fifo_elemsz := by
  unfold wcount
  rcases Nat.lt_or_ge cfg.scull_fifo_elemsz data.length with h | h
  · rw [if_pos h]; omega
  · rw [if_neg (by omega)]; omega

theorem wcount_le_length (cfg : Cfg) (data : List Nat) : wcount cfg data ≤ data.length := by
  rw [wcount_eq_min]; omega

theorem readBlockPhase_some {s : ScullState} {o : ReadOracle} {t : ScullState}
    (h : readBlockPhase s o = some t) :
    t.mem = s.mem ∧ t.start = s.start ∧ t.end_ = s.end_ ∧ t.queue_full = s.queue_full := by
  simp only [readBlockPhase] at h
  split at h
  · exact absurd h (by simp)
  · split at h
    · split at h
      · exact absurd h (by simp)
      · split at h
        · exact absurd h (by simp)
        · injection h with h
          subst h
          exact ⟨rfl, rfl, rfl, rfl⟩
    · injection h with h
      subst h
      exact ⟨rfl, rfl, rfl, rfl⟩

theorem writeBlockPhase_some {cfg : Cfg} {s : ScullState} {o : WriteOracle} {t : ScullState}
    (h : writeBlockPhase cfg s o = some t) :
    t.mem = s.mem ∧ t.start = s.start ∧ t.end_ = s.end_ ∧ t.queue_empty = s.queue_empty := by
  simp only [writeBlockPhase] at h
  split at h
  · exact absurd h (by simp)
  · split at h
    · split at h
      · exact absurd h (by simp)
      · split at h
        · exact absurd h (by simp)
        · injection h with h
          subst h
          exact ⟨rfl, rfl, rfl, rfl⟩
    · injection h with h
      subst h
      exact ⟨rfl, rfl, rfl, rfl⟩

theorem readCopyPhase_fault (cfg : Cfg) (t : ScullState) (count : Nat) :
    (readCopyPhase cfg t count true).2.1 = -EFAULT ∧
    (readCopyPhase cfg t count true).1.mem = t.mem ∧
    (readCopyPhase cfg t count true).1.start = t.start ∧
    (readCopyPhase cfg t count true).1.end_ = t.end_ :=
  ⟨rfl, rfl, rfl, rfl⟩

theorem readCopyPhase_ok (cfg : Cfg) (t : ScullState) (count : Nat) :
    (readCopyPhase cfg t count false).2.1 = (count : Int) ∧
    (readCopyPhase cfg t count false).2.2 = seg t.mem t.start count ∧
    (readCopyPhase cfg t count false).1.mem = t.mem ∧
    (readCopyPhase cfg t count false).1.start = advance cfg.scull_fifo_size t.start count ∧
    (readCopyPhase cfg t count false).1.end_ = t.end_ :=
  ⟨rfl, rfl, rfl, rfl, rfl⟩

theorem writeCopyPhase_fault (cfg : Cfg) (t : ScullState) (data : List Nat) (count : Nat) :
    (writeCopyPhase cfg t data count true).2.1 = -EFAULT ∧
    (writeCopyPhase cfg t data count true).1.mem = t.mem ∧
    (writeCopyPhase cfg t data count true).1.start = t.start ∧
    (writeCopyPhase cfg t data count true).1.end_ = t.end_ :=
  ⟨rfl, rfl, rfl, rfl⟩

theorem writeCopyPhase_ok (cfg : Cfg) (t : ScullState) (data : List Nat) (count : Nat) :
    (writeCopyPhase cfg t data count false).2.1 = (count : Int) ∧
    (writeCopyPhase cfg t data count false).2.2 = data.take count ∧
    (writeCopyPhase cfg t data count false).1.mem = writeMem t.mem t.end_ (data.take count) ∧
    (writeCopyPhase cfg t data count false).1.start = t.start ∧
    (writeCopyPhase cfg t data count false).1.end_ =
      advance cfg.scull_fifo_size t.end_ count :=
  ⟨rfl, rfl, rfl, rfl, rfl⟩

theorem scull_read_fault {cfg : Cfg} {s : ScullState} {count : Nat} {o : ReadOracle}
    {r : ScullState × Int × List Nat} (hc : o.copy_fails = true)
    (h : scull_read cfg s count o = some r) :
    r.2.1 = -EFAULT ∧ r.1.start = s.start ∧ r.1.end_ = s.end_ ∧ r.1.mem = s.mem := by
  unfold scull_read at h
  cases hb : readBlockPhase s o with
  | none => rw [hb] at h; exact absurd h (by simp)
  | some t =>
    rw [hb] at h
    simp only [Option.map_some', Option.some_inj] at h
    obtain ⟨hm, hst, he, _⟩ := readBlockPhase_some hb
    rw [hc] at h
    obtain ⟨h1, h2, h3, h4⟩ := readCopyPhase_fault cfg t count
    rw [h] at h1 h2 h3 h4
    exact ⟨h1, h3.trans hst, h4.trans he, h2.trans hm⟩

theorem scull_read_ok {cfg : Cfg} {s : ScullState} {count : Nat} {o : ReadOracle}
    {r : ScullState × Int × List Nat} (hc : o.copy_fails = false)
    (h : scull_read cfg s count o = some r) :
    r.2.1 = (count : Int) ∧ r.2.2 = seg s.mem s.start count ∧ r.1.mem = s.mem ∧
    r.1.start = advance cfg.scull_fifo_size s.start count ∧ r.1.end_ = s.end_ := by
  unfold scull_read at h
  cases hb : readBlockPhase s o with
  | none => rw [hb] at h; exact absurd h (by simp)
  | some t =>
    rw [hb] at h
    simp only [Option.map_some', Option.some_inj] at h
    obtain ⟨hm, hst, he, _⟩ := readBlockPhase_some hb
    rw [hc] at h
    obtain ⟨h1, h2, h3, h4, h5⟩ := readCopyPhase_ok cfg t count
    rw [h] at h1 h2 h3 h4 h5
    refine ⟨h1, ?_, h3.trans hm, ?_, h5.trans he⟩
    · rw [h2, hm, hst]
    · rw [h4, hst]

theorem scull_write_fault {cfg : Cfg} {s : ScullState} {data : List Nat} {o : WriteOracle}
    {r : ScullState × Int × List Nat} (hc : o.copy_fails = true)
    (h : scull_write cfg s data o = some r) :
    r.2.1 = -EFAULT ∧ r.1.start = s.start ∧ r.1.end_ = s.end_ ∧ r.1.mem = s.mem := by
  unfold scull_write at h
  cases hb : writeBlockPhase cfg s o with
  | none => rw [hb] at h; exact absurd h (by simp)
  | some t =>
    rw [hb] at h
    simp only [Option.map_some', Option.some_inj] at h
    obtain ⟨hm, hst, he, _⟩ := writeBlockPhase_some hb
    rw [hc] at h
    obtain ⟨h1, h2, h3, h4⟩ := writeCopyPhase_fault cfg t data (wcount cfg data)
    rw [h] at h1 h2 h3 h4
    exact ⟨h1, h3.trans hst, h4.trans he, h2.trans hm⟩

theorem scull_write_ok {cfg : Cfg} {s : ScullState} {data : List Nat} {o : WriteOracle}
    {r : ScullState × Int × List Nat} (hc : o.copy_fails = false)
    (h : scull_write cfg s data o = some r) :
    r.2.1 = (wcount cfg data : Int) ∧ r.2.2 = data.take (wcount cfg data) ∧
    r.1.mem = writeMem s.mem s.end_ (data.take (wcount cfg data)) ∧
    r.1.start = s.start ∧
    r.1.end_ = advance cfg.scull_fifo_size s.end_ (wcount cfg data) := by
  unfold scull_write at h
  cases hb : writeBlockPhase cfg s o with
  | none => rw [hb] at h; exact absurd h (by simp)
  | some t =>
    rw [hb] at h
    simp only [Option.map_some', Option.some_inj] at h
    obtain ⟨hm, hst, he, _⟩ := writeBlockPhase_some hb
    rw [hc] at h
    obtain ⟨h1, h2, h3, h4, h5⟩ := writeCopyPhase_ok cfg t data (wcount cfg data)
    rw [h] at h1 h2 h3 h4 h5
    refine ⟨h1, h2, ?_, h4.trans hst, ?_⟩
    · rw [h3, hm, he]
    · rw [h5, he]

theorem readBlockPhase_inv {s : ScullState} (hl : s.lock = 1) (hqe : s.queue_empty = 0) :
    readBlockPhase s noIntrR =
      if s.start = s.end_ then none else some { s with lock := 0 } := by
  have h1 : downInterruptible s.lock noIntrR.intr_lock1 = some 0 := by
    rw [hl]; rfl
  unfold readBlockPhase
  rw [h1]
  show (if s.start = s.end_ then _ else _) = _
  by_cases he : s.start = s.end_
  · rw [if_pos he, if_pos he]
    have h2 : downInterruptible s.queue_empty noIntrR.intr_queue_empty = none := by
      show downInterruptible s.queue_empty false = none
      rw [hqe]; rfl
    dsimp only
    rw [h2]
  · rw [if_neg he, if_neg he]

theorem writeBlockPhase_inv {cfg : Cfg} {s : ScullState} (hl : s.lock = 1)
    (hqf : s.queue_full = 0) :
    writeBlockPhase cfg s noIntrW =
      if fullCond cfg s then none else some { s with lock := 0 } := by
  have h1 : downInterruptible s.lock noIntrW.intr_lock1 = some 0 := by
    rw [hl]; rfl
  unfold writeBlockPhase
  rw [h1]
  show (if fullCond cfg { s with lock := (0 : Int) } then _ else _) = _
  have hfc : fullCond cfg { s with lock := (0 : Int) } ↔ fullCond cfg s := Iff.rfl
  by_cases hf : fullCond cfg s
  · rw [if_pos (hfc.mpr hf), if_pos hf]
    have h2 : downInterruptible s.queue_full noIntrW.intr_queue_full = none := by
      show downInterruptible s.queue_full false = none
      rw [hqf]; rfl
    dsimp only
    rw [h2]
  · rw [if_neg (fun hc => hf (hfc.mp hc)), if_neg hf]

theorem scull_read_inv {cfg : Cfg} {s : ScullState} {count : Nat} (hl : s.lock = 1)
    (hqe : s.queue_empty = 0) (hqf : s.queue_full = 0) (hne : ¬ s.start = s.end_) :
    scull_read cfg s count noIntrR =
      some (⟨s.mem, advance cfg.scull_fifo_size s.start count, s.end_, 0, 0, 1⟩,
        (count : Int), seg s.mem s.start count) := by
  unfold scull_read
  rw [readBlockPhase_inv hl hqe, if_neg hne]
  simp only [Option.map_some', Option.some_inj]
  unfold readCopyPhase
  simp [noIntrR, hqe, hqf, condUp]

theorem scull_write_inv {cfg : Cfg} {s : ScullState} {data : List Nat} (hl : s.lock = 1)
    (hqe : s.queue_empty = 0) (hqf : s.queue_full = 0) (hnf : ¬ fullCond cfg s) :
    scull_write cfg s data noIntrW =
      some (⟨writeMem s.mem s.end_ (data.take (wcount cfg data)), s.start,
        advance cfg.scull_fifo_size s.end_ (wcount cfg data), 0, 0, 1⟩,
        (wcount cfg data : Int), data.take (wcount cfg data)) := by
  unfold scull_write
  rw [writeBlockPhase_inv hl hqf, if_neg hnf]
  simp only [Option.map_some', Option.some_inj]
  unfold writeCopyPhase
  simp [noIntrW, hqe, hqf, condUp]

theorem execOp_wr {cfg : Cfg} {s : ScullState} {data : List Nat}
    {r : ScullState × List Nat × List Nat} (hInv : Inv cfg s)
    (hfit : s.end_ + min data.length cfg.scull_fifo_elemsz ≤ cfg.scull_fifo_size)
    (h : execOp cfg s (Op.wr data) = some r) :
    Inv cfg r.1 ∧ r.2.1 = data.take (wcount cfg data) ∧ r.2.2 = [] ∧
    occBytes r.1 = occBytes s ++ data.take (wcount cfg data) := by
  obtain ⟨hl, hqe, hqf, hse, hen⟩ := hInv
  by_cases hf : fullCond cfg s
  · have hnone : execOp cfg s (Op.wr data) = none := by
      simp only [execOp]
      unfold scull_write
      rw [writeBlockPhase_inv hl hqf, if_pos hf]
      rfl
    rw [hnone] at h
    exact absurd h (by simp)
  · have hw := @scull_write_inv cfg s data hl hqe hqf hf
    simp only [execOp] at h
    rw [hw] at h
    simp only [Option.some_inj] at h
    subst h
    have hfit' : s.end_ + wcount cfg data ≤ cfg.scull_fifo_size := by
      rw [wcount_eq_min]; exact hfit
    have hadv : advance cfg.scull_fifo_size s.end_ (wcount cfg data) =
        s.end_ + wcount cfg data :=
      advance_add_of_le cfg.scull_fifo_size (wcount cfg data) s.end_ hfit'
    refine ⟨⟨rfl, rfl, rfl, ?_, ?_⟩, rfl, rfl, ?_⟩
    · show s.start ≤ advance cfg.scull_fifo_size s.end_ (wcount cfg data)
      rw [hadv]; omega
    · show advance cfg.scull_fifo_size s.end_ (wcount cfg data) ≤ cfg.scull_fifo_size
      rw [hadv]; omega
    · unfold occBytes
      dsimp only
      rw [hadv]
      have hsplit : s.end_ + wcount cfg data - s.start =
          (s.end_ - s.start) + wcount cfg data := by omega
      rw [hsplit, seg_add]
      congr 1
      · exact seg_writeMem_of_le _ _ _ _ _ (by omega)
      · have hb : s.start + (s.end_ - s.start) = s.end_ := by omega
        rw [hb]
        have hlen : (data.take (wcount cfg data)).length = wcount cfg data := by
          rw [List.length_take]
          have := wcount_le_length cfg data
          omega
        calc seg (writeMem s.mem s.end_ (data.take (wcount cfg data))) s.end_ (wcount cfg data)
            = seg (writeMem s.mem s.end_ (data.take (wcount cfg data))) s.end_
                ((data.take (wcount cfg data)).length) := by rw [hlen]
          _ = data.take (wcount cfg data) := seg_writeMem_self _ _ _

theorem execOp_rd {cfg : Cfg} {s : ScullState} {n : Nat}
    {r : ScullState × List Nat × List Nat} (hInv : Inv cfg s) (hreq : s.start + n ≤ s.end_)
    (h : execOp cfg s (Op.rd n) = some r) :
    Inv cfg r.1 ∧ r.2.1 = [] ∧ r.2.2 = seg s.mem s.start n ∧
    occBytes s = seg s.mem s.start n ++ occBytes r.1 := by
  obtain ⟨hl, hqe, hqf, hse, hen⟩ := hInv
  by_cases hne : s.start = s.end_
  · have hnone : execOp cfg s (Op.rd n) = none := by
      simp only [execOp]
      unfold scull_read
      rw [readBlockPhase_inv hl hqe, if_pos hne]
      rfl
    rw [hnone] at h
    exact absurd h (by simp)
  · have hr := @scull_read_inv cfg s n hl hqe hqf hne
    simp only [execOp] at h
    rw [hr] at h
    simp only [Option.some_inj] at h
    subst h
    have hadv : advance cfg.scull_fifo_size s.start n = s.start + n :=
      advance_add_of_le cfg.scull_fifo_size n s.start (by omega)
    refine ⟨⟨rfl, rfl, rfl, ?_, ?_⟩, rfl, rfl, ?_⟩
    · show advance cfg.scull_fifo_size s.start n ≤ s.end_
      rw [hadv]; omega
    · exact hen
    · unfold occBytes
      dsimp only
      rw [hadv]
      have hsplit : s.end_ - s.start = n + (s.end_ - (s.start + n)) := by omega
      rw [hsplit, seg_add]

theorem fifo_aux (cfg : Cfg) : ∀ (ops : List Op) (s : ScullState), Inv cfg s →
    goodTrace cfg s ops → ∀ out, runTrace cfg s ops = some out →
    occBytes s ++ out.2.1 = out.2.2 ++ occBytes out.1 := by
  intro ops
  induction ops with
  | nil =>
    intro s _ _ out hrun
    unfold runTrace at hrun
    injection hrun with hrun
    subst hrun
    simp
  | cons op ops ih =>
    intro s hInv hgood out hrun
    unfold runTrace at hrun
    cases op with
    | wr data =>
      obtain ⟨hfit, r, hexec, hgood'⟩ := hgood
      rw [hexec] at hrun
      dsimp only at hrun
      cases hrt : runTrace cfg r.1 ops with
      | none => rw [hrt] at hrun; exact absurd hrun (by simp)
      | some out2 =>
        rw [hrt] at hrun
        dsimp only at hrun
        injection hrun with hrun
        subst hrun
        obtain ⟨hInv', hw, hre, hocc⟩ := execOp_wr hInv hfit hexec
        have hq := ih r.1 hInv' hgood' out2 hrt
        dsimp only
        rw [hw, hre, ← List.append_assoc, ← hocc, hq]
        simp
    | rd n =>
      obtain ⟨hreq, r, hexec, hgood'⟩ := hgood
      rw [hexec] at hrun
      dsimp only at hrun
      cases hrt : runTrace cfg r.1 ops with
      | none => rw [hrt] at hrun; exact absurd hrun (by simp)
      | some out2 =>
        rw [hrt] at hrun
        dsimp only at hrun
        injection hrun with hrun
        subst hrun
        obtain ⟨hInv', hw, hre, hocc⟩ := execOp_rd hInv hreq hexec
        have hq := ih r.1 hInv' hgood' out2 hrt
        dsimp only
        rw [hw, hre, hocc]
        simp only [List.nil_append, List.append_assoc]
        rw [hq]

/-- Capacity 10, per-call cap 10 — the spec's no-over-read test shape. -/
def cfg10 : Cfg := ⟨10, 10⟩

/-- All-zero storage. -/
def m0 : Nat → Nat := fun _ => 0

/-- The quiescent empty channel: cursors at `orig`, lock free, no signals. -/
def st0 : ScullState := ⟨m0, 0, 0, 0, 0, 1⟩

/-- A channel with 3 occupied bytes `[7, 8, 9]` at offsets 0..2. -/
def s3occ : ScullState := ⟨fun a => if a < 3 then a + 7 else 0, 0, 3, 0, 0, 1⟩

/-- A channel with 9 occupied bytes: occupied length = capacity − 1. -/
def s9 : ScullState := ⟨m0, 0, 9, 0, 0, 1⟩

/-- A wrapped cursor configuration: read cursor 9, write cursor 5. -/
def sWrapped : ScullState := ⟨m0, 9, 5, 0, 0, 1⟩

/-- Read oracle: the `queue_empty` wait is interrupted, nothing else. -/
def oIntrQE : ReadOracle := ⟨false, true, false, false⟩

/-- Read oracle: `copy_to_user` faults. -/
def oFaultR : ReadOracle := ⟨false, false, false, true⟩

/-- Write oracle: `copy_from_user` faults. -/
def oFaultW : WriteOracle := ⟨false, false, false, true⟩

/-- C1 counterexample: the claim fails on the code as stated.  In the
serialized trace "write [1,2,3]; read 5" on the empty capacity-10 channel,
the read completes successfully and returns five bytes [1,2,3,0,0] — the
three written bytes followed by two bytes of unoccupied storage, because
the driver never clamps the requested length — so the concatenation of the
bytes returned by successful reads is not an initial segment of the
concatenation of the bytes accepted by successful writes. -/
theorem fifo_refuted_by_overread :
    (runTrace cfg10 st0 [Op.wr [1, 2, 3], Op.rd 5]).map (fun out => (out.2.1, out.2.2)) =
      some ([1, 2, 3], [1, 2, 3, 0, 0]) ∧
    ∀ t : List Nat, [1, 2, 3, 0, 0] ++ t ≠ [1, 2, 3] := by
  constructor
  · decide
  · intro t h
    have hlen := congrArg List.length h
    simp at hlen

/-- C1 (amended): for serialized traces from the initial state in which
every call completes undisturbed (no blocking, interruption or copy
fault), every read requests at most the occupied byte count, and every
write fits without moving the write cursor past the ring bound (so no
cursor wraps), the concatenation of the bytes returned by the reads is an
initial segment of the concatenation of the bytes accepted by the writes.
(With wrapping the property fails even for clamped reads, because the
copies are contiguous while the cursors wrap.) -/
theorem fifo_of_clamped_unwrapped_traces (cfg : Cfg) (m : Nat → Nat) (ops : List Op)
    (out : ScullState × List Nat × List Nat)
    (hgood : goodTrace cfg ⟨m, 0, 0, 0, 0, 1⟩ ops)
    (hrun : runTrace cfg ⟨m, 0, 0, 0, 0, 1⟩ ops = some out) :
    ∃ t, out.2.2 ++ t = out.2.1 := by
  have hInv : Inv cfg ⟨m, 0, 0, 0, 0, 1⟩ := ⟨rfl, rfl, rfl, Nat.le_refl 0, Nat.zero_le _⟩
  have hq := fifo_aux cfg ops _ hInv hgood out hrun
  refine ⟨occBytes out.1, ?_⟩
  have h0 : occBytes (⟨m, 0, 0, 0, 0, 1⟩ : ScullState) = [] := rfl
  rw [h0] at hq
  simpa using hq.symm

/-- Intermediate state of the witness trace, after `write [1,2,3]`. -/
def s1x : ScullState := ⟨writeMem m0 0 (List.take 3 [1, 2, 3]), 0, 3, 0, 0, 1⟩

/-- Final state of the witness trace, after `read 2`. -/
def s2x : ScullState := ⟨writeMem m0 0 (List.take 3 [1, 2, 3]), 2, 3, 0, 0, 1⟩

/-- Witness for the amended C1 theorem: the trace "write [1,2,3]; read 2"
satisfies its hypotheses, and the read bytes [1,2] extend to the written
bytes [1,2,3]. -/
theorem fifo_of_clamped_unwrapped_traces_witness : ∃ t, [1, 2] ++ t = [1, 2, 3] :=
  fifo_of_clamped_unwrapped_traces cfg10 m0 [Op.wr [1, 2, 3], Op.rd 2]
    (s2x, [1, 2, 3], [1, 2])
    ⟨by decide, (s1x, [1, 2, 3], []), rfl, by decide, (s2x, [], [1, 2]), rfl, trivial⟩
    rfl

/-- C2 (code_bug, evaluated at the spec's own test input): with capacity 10
and 3 occupied bytes, a read requesting 100 bytes completes and returns
100, not 3 — `scull_read` never clamps the requested count to the occupied
length, and copies 100 bytes starting at the read cursor. -/
theorem read_returns_request_not_occupied :
    s3occ.end_ - s3occ.start = 3 ∧ cfg10.scull_fifo_size = 10 ∧
    (scull_read cfg10 s3occ 100 noIntrR).map (fun r => r.2.1) = some 100 ∧
    (100 : Int) ≠ 3 := by decide

/-- C3 counterexample: the claim fails on the code as stated.  In the state
with occupied length 9 = capacity − 1 (start 0, end 9, capacity 10), an
undisturbed `scull_write` does not block: it completes at once and returns
1, because the code's guard compares the raw difference `end − start`
against 1 and against `scull_fifo_size`, and 9 is neither. -/
theorem write_not_blocking_at_occupied_capacity_minus_one :
    s9.end_ - s9.start = cfg10.scull_fifo_size - 1 ∧
    (scull_write cfg10 s9 [5] noIntrW).map (fun r => r.2.1) = some 1 := by decide

/-- C3 (amended): with the lock free and no pending `queue_full` count, an
undisturbed `scull_write` blocks (waits on `queue_full`, having released
the lock first) exactly when the raw signed cursor difference `end − start`
equals 1 or equals `scull_fifo_size`.  The guard is the raw pointer
difference, not the occupied length of the ring: in unwrapped states it
blocks at occupied length 1 or capacity, and in wrapped states (write
cursor before read cursor, difference negative) it never blocks. -/
theorem write_blocks_iff_raw_diff (cfg : Cfg) (s : ScullState) (data : List Nat)
    (hl : s.lock = 1) (hqf : s.queue_full = 0) :
    scull_write cfg s data noIntrW = none ↔ fullCond cfg s := by
  unfold scull_write
  rw [writeBlockPhase_inv hl hqf]
  by_cases hf : fullCond cfg s
  · rw [if_pos hf]
    simp [hf]
  · rw [if_neg hf]
    simp [hf]

/-- Witness for the amended C3 theorem: a write to the state with raw
difference `end − start = 1` (one occupied byte) blocks. -/
theorem write_blocks_iff_raw_diff_witness :
    scull_write cfg10 ⟨m0, 0, 1, 0, 0, 1⟩ [7] noIntrW = none :=
  (write_blocks_iff_raw_diff cfg10 ⟨m0, 0, 1, 0, 0, 1⟩ [7] rfl rfl).mpr (Or.inl (by decide))

/-- C4 (code_bug, evaluated at a violating schedule): from the empty state
(`start = end`), a read whose wait on `queue_empty` is interrupted
proceeds — the driver only logs the failed acquisition, and the emptiness
guard is an `if` that is never re-checked after the wait — so the byte copy
executes while the buffer is empty, delivering 2 bytes of unoccupied
storage and returning success. -/
theorem read_copies_while_empty :
    st0.start = st0.end_ ∧
    (scull_read cfg10 st0 2 oIntrQE).map (fun r => (r.2.1, r.2.2)) =
      some (2, [0, 0]) := by decide

/-- C5 counterexample: the claim fails on the code as stated.  Reading one
byte in a state whose cursors both lie within [0, 10) (read cursor 9, write
cursor 5, capacity 10) leaves the read cursor at offset 10 = capacity,
outside [0, capacity): the advance loop resets to `orig` only once the
offset is already ≥ capacity, i.e. one step late.  The claimed
modulo-capacity advance would give (9 + 1) % 10 = 0. -/
theorem cursor_leaves_claimed_range :
    sWrapped.start < cfg10.scull_fifo_size ∧ sWrapped.end_ < cfg10.scull_fifo_size ∧
    (scull_read cfg10 sWrapped 1 noIntrR).map (fun r => r.1.start) = some 10 ∧
    ¬ (10 < cfg10.scull_fifo_size) ∧ (9 + 1) % cfg10.scull_fifo_size = 0 := by decide

/-- C5 (amended): every completed read and write keeps both cursors within
[0, capacity] — capacity inclusive, one more offset than the claim's
[0, capacity) — and on offsets ≤ capacity the advance loop realizes
addition modulo capacity + 1 (wrapping back to the start of the allocated
region one step after the claimed bound), not modulo capacity. -/
theorem cursor_bounds_amended :
    (∀ n c k, c ≤ n → advance n c k = (c + k) % (n + 1)) ∧
    (∀ cfg s count o r, scull_read cfg s count o = some r →
      s.start ≤ cfg.scull_fifo_size → s.end_ ≤ cfg.scull_fifo_size →
      r.1.start ≤ cfg.scull_fifo_size ∧ r.1.end_ ≤ cfg.scull_fifo_size) ∧
    (∀ cfg s data o r, scull_write cfg s data o = some r →
      s.start ≤ cfg.scull_fifo_size → s.end_ ≤ cfg.scull_fifo_size →
      r.1.start ≤ cfg.scull_fifo_size ∧ r.1.end_ ≤ cfg.scull_fifo_size) := by
  refine ⟨fun n c k h => advance_mod n k c h, ?_, ?_⟩
  · intro cfg s count o r h hs he
    cases hc : o.copy_fails with
    | false =>
      obtain ⟨_, _, _, h4, h5⟩ := scull_read_ok hc h
      rw [h4, h5]
      exact ⟨advance_le _ _ _ hs, he⟩
    | true =>
      obtain ⟨_, h2, h3, _⟩ := scull_read_fault hc h
      rw [h2, h3]
      exact ⟨hs, he⟩
  · intro cfg s data o r h hs he
    cases hc : o.copy_fails with
    | false =>
      obtain ⟨_, _, _, h4, h5⟩ := scull_write_ok hc h
      rw [h4, h5]
      exact ⟨hs, advance_le _ _ _ he⟩
    | true =>
      obtain ⟨_, h2, h3, _⟩ := scull_write_fault hc h
      rw [h2, h3]
      exact ⟨hs, he⟩

/-- Result state of the witness read for the amended C5 theorem. -/
def s3occR : ScullState := ⟨s3occ.mem, 2, 3, 0, 0, 1⟩

/-- Result state of the witness write for the amended C5 theorem. -/
def sW2 : ScullState := ⟨writeMem st0.mem st0.end_ (List.take 2 [4, 5]), 0, 2, 0, 0, 1⟩

/-- Witness for the amended C5 theorem at concrete inputs: the advance of
one step from offset 9, a completed read of 2 bytes, and a completed write
of 2 bytes. -/
theorem cursor_bounds_amended_witness :
    advance 10 9 1 = (9 + 1) % (10 + 1) ∧
    (s3occR.start ≤ cfg10.scull_fifo_size ∧ s3occR.end_ ≤ cfg10.scull_fifo_size) ∧
    (sW2.start ≤ cfg10.scull_fifo_size ∧ sW2.end_ ≤ cfg10.scull_fifo_size) :=
  ⟨cursor_bounds_amended.1 10 9 1 (by decide),
   cursor_bounds_amended.2.1 cfg10 s3occ 2 noIntrR (s3occR, 2, seg s3occ.mem 0 2)
     rfl (by decide) (by decide),
   cursor_bounds_amended.2.2 cfg10 st0 [4, 5] noIntrW (sW2, 2, List.take 2 [4, 5])
     rfl (by decide) (by decide)⟩

/-- C6: if the user-space copy step faults, a completed read or write
returns `-EFAULT` and mutates no cursor: the read cursor, the write cursor
and the stored bytes are exactly as they were before the failed call, so a
subsequent correct call observes the buffer unchanged. -/
theorem fault_leaves_buffer_unchanged :
    (∀ cfg s count o r, o.copy_fails = true → scull_read cfg s count o = some r →
      r.2.1 = -EFAULT ∧ r.1.start = s.start ∧ r.1.end_ = s.end_ ∧ r.1.mem = s.mem) ∧
    (∀ cfg s data o r, o.copy_fails = true → scull_write cfg s data o = some r →
      r.2.1 = -EFAULT ∧ r.1.start = s.start ∧ r.1.end_ = s.end_ ∧ r.1.mem = s.mem) :=
  ⟨fun _ _ _ _ _ hc h => scull_read_fault hc h,
   fun _ _ _ _ _ hc h => scull_write_fault hc h⟩

/-- Witness for C6: a faulting read of 5 bytes and a faulting write of 2
bytes from the 3-occupied state both return `-EFAULT` and leave it
unchanged. -/
theorem fault_leaves_buffer_unchanged_witness :
    ((-EFAULT : Int) = -EFAULT ∧ s3occ.start = s3occ.start ∧ s3occ.end_ = s3occ.end_ ∧
      s3occ.mem = s3occ.mem) ∧
    ((-EFAULT : Int) = -EFAULT ∧ s3occ.start = s3occ.start ∧ s3occ.end_ = s3occ.end_ ∧
      s3occ.mem = s3occ.mem) :=
  ⟨fault_leaves_buffer_unchanged.1 cfg10 s3occ 5 oFaultR (s3occ, -EFAULT, []) rfl rfl,
   fault_leaves_buffer_unchanged.2 cfg10 s3occ [9, 9] oFaultW (s3occ, -EFAULT, []) rfl rfl⟩

/-- C7: a completed, non-faulting write supplying elem_size + k bytes with
k > 0 accepts exactly the first elem_size bytes, stores exactly those bytes
contiguously at the write cursor, advances the write cursor by elem_size
steps, and returns elem_size. -/
theorem write_truncates_to_elemsz (cfg : Cfg) (s : ScullState) (data : List Nat)
    (o : WriteOracle) (r : ScullState × Int × List Nat) (k : Nat)
    (hlen : data.length = cfg.scull_fifo_elemsz + k) (hk : 0 < k)
    (hc : o.copy_fails = false) (h : scull_write cfg s data o = some r) :
    r.2.1 = (cfg.scull_fifo_elemsz : Int) ∧
    r.2.2 = data.take cfg.scull_fifo_elemsz ∧
    r.2.2.length = cfg.scull_fifo_elemsz ∧
    r.1.mem = writeMem s.mem s.end_ (data.take cfg.scull_fifo_elemsz) ∧
    r.1.end_ = advance cfg.scull_fifo_size s.end_ cfg.scull_fifo_elemsz ∧
    r.1.start = s.start := by
  have hw : wcount cfg data = cfg.scull_fifo_elemsz := by
    unfold wcount
    rw [if_pos (by omega)]
  obtain ⟨h1, h2, h3, h4, h5⟩ := scull_write_ok hc h
  rw [hw] at h1 h2 h3 h5
  refine ⟨h1, h2, ?_, h3, h5, h4⟩
  rw [h2, List.length_take]
  omega

/-- Eleven data bytes for the C7 witness (one more than elem_size 10). -/
def repData : List Nat := List.replicate 11 3

/-- Result state of the C7 witness write. -/
def sRep : ScullState := ⟨writeMem m0 0 (List.take 10 repData), 0, 10, 0, 0, 1⟩

/-- Witness for C7: writing 11 bytes with elem_size 10 returns 10 and
enqueues exactly the first 10 bytes. -/
theorem write_truncates_to_elemsz_witness :
    (10 : Int) = (cfg10.scull_fifo_elemsz : Int) ∧
    List.take 10 repData = repData.take cfg10.scull_fifo_elemsz ∧
    (List.take 10 repData).length = cfg10.scull_fifo_elemsz ∧
    sRep.mem = writeMem st0.mem st0.end_ (repData.take cfg10.scull_fifo_elemsz) ∧
    sRep.end_ = advance cfg10.scull_fifo_size st0.end_ cfg10.scull_fifo_elemsz ∧
    sRep.start = st0.start :=
  write_truncates_to_elemsz cfg10 st0 repData noIntrW
    (sRep, 10, List.take 10 repData) 1 (by decide) (by decide) rfl rfl

/-- C8 (code_bug, evaluated at a violating input): a read of 4 bytes from
the empty channel whose `queue_empty` wait is interrupted by a pending
cancellation does not return `-EINTR`: the driver logs the failed
acquisition, proceeds past it, and returns 4 as if the call had
succeeded. -/
theorem interrupted_wait_not_propagated :
    (scull_read cfg10 st0 4 oIntrQE).map (fun r => r.2.1) = some 4 ∧
    (4 : Int) ≠ -EINTR := by decide

/-- C9 (code_bug, evaluated at a violating input): after a successful
2-byte write from the quiescent empty state, the `queue_empty`
(items_available) count is still 0, and after a successful read the
`queue_full` (space_available) count is still 0 — the driver posts each
signal only under the internal condition `count < 0`, never
unconditionally after success. -/
theorem success_posts_no_signal :
    st0.queue_empty = 0 ∧
    (scull_write cfg10 st0 [4, 5] noIntrW).map (fun r => r.1.queue_empty) = some 0 ∧
    s3occ.queue_full = 0 ∧
    (scull_read cfg10 s3occ 2 noIntrR).map (fun r => r.1.queue_full) = some 0 := by decide

/-- C10: for every command word, every access-check outcome and every
device state, `scull_ioctl` returns the state unchanged — cursors, stored
bytes and all three semaphore counts — and its result value is the
configured element size, `-ENOTTY`, or `-EFAULT`. -/
theorem ioctl_preserves_state (cfg : Cfg) (magic maxnr getelemsz : Nat) (accessOk : Bool)
    (cmd : Nat) (s : ScullState) :
    (scull_ioctl cfg magic maxnr getelemsz accessOk cmd s).1 = s ∧
    ((scull_ioctl cfg magic maxnr getelemsz accessOk cmd s).2 = (cfg.scull_fifo_elemsz : Int) ∨
      (scull_ioctl cfg magic maxnr getelemsz accessOk cmd s).2 = -ENOTTY ∨
      (scull_ioctl cfg magic maxnr getelemsz accessOk cmd s).2 = -EFAULT) := by
  cases accessOk <;>
  · unfold scull_ioctl
    repeat' split
    all_goals simp

end Scull
